import Mathlib

/-!
Verification of the Market-Data-Feed-Handler repository: a sequential
shallow embedding of the two queue implementations
(`SPSCQueue` in include/lockfree_queue.h, `MutexQueue` in
include/mutex_queue.h), the measurement classes (`LatencyTracker`,
`ThroughputMeter`, `BenchmarkResults` in include/benchmark.h), and the
producer/consumer benchmark harness (src/benchmark.cpp), together with
proofs of the specified properties.

Modelling conventions: C++ `double` values are embedded as `ℚ`;
`std::optional<T>` as `Option`; the member vectors/queues as `List`.
Atomic loads/stores and mutex acquisition are modelled by their
sequential semantics (interleavings at the granularity of whole queue
operations for the harness, matching the SPSC usage discipline under
which the source's release/acquire pairs make each push/pop atomic
to the other thread).
-/

namespace MDFH

/-! ## SPSCQueue (include/lockfree_queue.h)

The lock-free queue is a singly linked list with a dummy head node:
`head_` always points at an already-consumed sentinel whose successor
chain holds the live values, and `tail_` points at the last node.
The state is captured by the sentinel's payload (`headData`, written
`T{}` by the constructor and overwritten with the last popped value as
the head advances — it is never read by any operation) together with
the list of payloads of the nodes strictly after the head, in head-to-
tail order (`rest`). -/

structure SPSCQueue (α : Type) where
  headData : α
  rest : List α
deriving Repr, DecidableEq

namespace SPSCQueue

/-- Constructor: allocates a dummy node `Node(T{})` and points both
`head_` and `tail_` at it. -/
def new (α : Type) [Inhabited α] : SPSCQueue α :=
  { headData := default, rest := [] }

/-- Method `push`: allocates a node holding `value` with null `next`, links it
after the current tail and advances `tail_`; the new node becomes the
last element after the head. -/
def push (q : SPSCQueue α) (value : α) : SPSCQueue α :=
  { q with rest := q.rest ++ [value] }

/-- Method `pop`: reads `head_->next`; if null the queue is empty and nothing
changes; otherwise copies the successor's data, advances `head_` to the
successor (whose payload becomes the new sentinel payload) and frees the
former head. -/
def pop (q : SPSCQueue α) : Option α × SPSCQueue α :=
  match q.rest with
  | [] => (none, q)
  | x :: xs => (some x, { headData := x, rest := xs })

/-- Method `empty`: true iff `head_->next` is null. -/
def empty (q : SPSCQueue α) : Bool :=
  q.rest.isEmpty

end SPSCQueue

/-! ## MutexQueue (include/mutex_queue.h)

A `std::queue` guarded by a mutex; sequentially the lock is invisible
and the state is the queue contents, front first. -/

structure MutexQueue (α : Type) where
  queue_ : List α
deriving Repr, DecidableEq

namespace MutexQueue

/-- Default constructor: an empty `std::queue`. -/
def new (α : Type) : MutexQueue α := { queue_ := [] }

/-- Method `push`: appends at the back under the lock. -/
def push (q : MutexQueue α) (value : α) : MutexQueue α :=
  { queue_ := q.queue_ ++ [value] }

/-- Method `pop`: under the lock, returns `nullopt` when empty, otherwise takes
the front element. -/
def pop (q : MutexQueue α) : Option α × MutexQueue α :=
  match q.queue_ with
  | [] => (none, q)
  | x :: xs => (some x, { queue_ := xs })

/-- Method `empty`: emptiness of the underlying container, read under the lock. -/
def empty (q : MutexQueue α) : Bool :=
  q.queue_.isEmpty

end MutexQueue

/-! ## Derived sequential drivers for the FIFO property -/

/-- Push every element of `vs`, in order, onto an `SPSCQueue`. -/
def SPSCQueue.pushAll (q : SPSCQueue α) (vs : List α) : SPSCQueue α :=
  vs.foldl SPSCQueue.push q

/-- Pop `n` times from an `SPSCQueue`, collecting the values returned by
the non-empty pops in order. -/
def SPSCQueue.popN (q : SPSCQueue α) : ℕ → List α × SPSCQueue α
  | 0 => ([], q)
  | n + 1 =>
    let r := q.pop
    let s := r.2.popN n
    (r.1.toList ++ s.1, s.2)

/-- Push every element of `vs`, in order, onto a `MutexQueue`. -/
def MutexQueue.pushAll (q : MutexQueue α) (vs : List α) : MutexQueue α :=
  vs.foldl MutexQueue.push q

/-- Pop `n` times from a `MutexQueue`, collecting the values returned by
the non-empty pops in order. -/
def MutexQueue.popN (q : MutexQueue α) : ℕ → List α × MutexQueue α
  | 0 => ([], q)
  | n + 1 =>
    let r := q.pop
    let s := r.2.popN n
    (r.1.toList ++ s.1, s.2)

lemma SPSCQueue.pushAll_rest (q : SPSCQueue α) (vs : List α) :
    (q.pushAll vs).rest = q.rest ++ vs := by
  induction vs generalizing q with
  | nil => simp [pushAll]
  | cons v vs ih =>
    simp [pushAll, List.foldl_cons] at *
    simpa [push] using ih (q.push v)

lemma SPSCQueue.popN_rest_length (l : List α) (q : SPSCQueue α) (h : q.rest = l) :
    (q.popN l.length).1 = l ∧ (q.popN l.length).2.rest = [] := by
  induction l generalizing q with
  | nil => simp [popN, h]
  | cons x xs ih =>
    have hpop : q.pop = (some x, ⟨x, xs⟩) := by simp [pop, h]
    have := ih (q := ⟨x, xs⟩) rfl
    constructor
    · simp only [List.length_cons, popN, hpop, Option.toList_some]
      simpa using this.1
    · simp only [List.length_cons, popN, hpop]
      exact this.2

lemma MutexQueue.pushAll_queue (q : MutexQueue α) (vs : List α) :
    (q.pushAll vs).queue_ = q.queue_ ++ vs := by
  induction vs generalizing q with
  | nil => simp [pushAll]
  | cons v vs ih =>
    simp [pushAll, List.foldl_cons] at *
    simpa [push] using ih (q.push v)

lemma MutexQueue.popN_queue_length (l : List α) (q : MutexQueue α) (h : q.queue_ = l) :
    (q.popN l.length).1 = l ∧ (q.popN l.length).2.queue_ = [] := by
  induction l generalizing q with
  | nil => simp [popN, h]
  | cons x xs ih =>
    have hpop : q.pop = (some x, ⟨xs⟩) := by simp [pop, h]
    have := ih (q := ⟨xs⟩) rfl
    constructor
    · simp only [List.length_cons, popN, hpop, Option.toList_some]
      simpa using this.1
    · simp only [List.length_cons, popN, hpop]
      exact this.2

/-- C1: for both queue types, pushing any finite sequence onto a fresh
queue and popping `length` times returns exactly that sequence in push
order; the state then reached answers `none` to a further `pop` and
`true` to `empty`.  The concrete scenario [10, 20, 30] is the instance
`vs = [10, 20, 30]` over `ℤ`. -/
theorem fifo_push_then_pop_both_queues (α : Type) [Inhabited α] (vs : List α) :
    ((((SPSCQueue.new ℤ).pushAll [10, 20, 30]).popN 3).1 = [10, 20, 30] ∧
      (((MutexQueue.new ℤ).pushAll [10, 20, 30]).popN 3).1 = [10, 20, 30]) ∧
    (((SPSCQueue.new α).pushAll vs).popN vs.length).1 = vs ∧
    ((((SPSCQueue.new α).pushAll vs).popN vs.length).2.pop.1 = none ∧
      (((SPSCQueue.new α).pushAll vs).popN vs.length).2.empty = true) ∧
    (((MutexQueue.new α).pushAll vs).popN vs.length).1 = vs ∧
    ((((MutexQueue.new α).pushAll vs).popN vs.length).2.pop.1 = none ∧
      (((MutexQueue.new α).pushAll vs).popN vs.length).2.empty = true) := by
  refine ⟨⟨by decide, by decide⟩, ?_⟩
  have hs : ((SPSCQueue.new α).pushAll vs).rest = vs := by
    simp [SPSCQueue.pushAll_rest, SPSCQueue.new]
  have hm : ((MutexQueue.new α).pushAll vs).queue_ = vs := by
    simp [MutexQueue.pushAll_queue, MutexQueue.new]
  have hS := SPSCQueue.popN_rest_length vs ((SPSCQueue.new α).pushAll vs) hs
  have hM := MutexQueue.popN_queue_length vs ((MutexQueue.new α).pushAll vs) hm
  refine ⟨hS.1, ⟨?_, ?_⟩, hM.1, ⟨?_, ?_⟩⟩
  · simp [SPSCQueue.pop, hS.2]
  · simp [SPSCQueue.empty, hS.2]
  · simp [MutexQueue.pop, hM.2]
  · simp [MutexQueue.empty, hM.2]

/-! ## Observational equivalence of the two queue types (C3) -/

/-- One operation of the common queue interface used by the harness. -/
inductive QOp (α : Type) where
  | push (v : α)
  | pop
  | emptyQ
deriving Repr, DecidableEq

/-- One observation produced by a queue operation: `push` returns
nothing, `pop` returns an optional value, `empty` returns a boolean. -/
inductive QObs (α : Type) where
  | pushed
  | popped (r : Option α)
  | emptiness (b : Bool)
deriving Repr, DecidableEq

/-- Run a list of interface operations on an `SPSCQueue`, collecting the
observations in order. -/
def SPSCQueue.runOps (q : SPSCQueue α) : List (QOp α) → List (QObs α) × SPSCQueue α
  | [] => ([], q)
  | op :: ops =>
    match op with
    | .push v =>
      let s := (q.push v).runOps ops
      (.pushed :: s.1, s.2)
    | .pop =>
      let r := q.pop
      let s := r.2.runOps ops
      (.popped r.1 :: s.1, s.2)
    | .emptyQ =>
      let s := q.runOps ops
      (.emptiness q.empty :: s.1, s.2)

/-- Run a list of interface operations on a `MutexQueue`, collecting the
observations in order. -/
def MutexQueue.runOps (q : MutexQueue α) : List (QOp α) → List (QObs α) × MutexQueue α
  | [] => ([], q)
  | op :: ops =>
    match op with
    | .push v =>
      let s := (q.push v).runOps ops
      (.pushed :: s.1, s.2)
    | .pop =>
      let r := q.pop
      let s := r.2.runOps ops
      (.popped r.1 :: s.1, s.2)
    | .emptyQ =>
      let s := q.runOps ops
      (.emptiness q.empty :: s.1, s.2)

lemma runOps_congr (ops : List (QOp α)) :
    ∀ (q1 : SPSCQueue α) (q2 : MutexQueue α), q1.rest = q2.queue_ →
      (q1.runOps ops).1 = (q2.runOps ops).1 ∧
        (q1.runOps ops).2.rest = (q2.runOps ops).2.queue_ := by
  induction ops with
  | nil => intro q1 q2 h; simp [SPSCQueue.runOps, MutexQueue.runOps, h]
  | cons op ops ih =>
    intro q1 q2 h
    match op with
    | .push v =>
      have := ih (q1.push v) (q2.push v) (by simp [SPSCQueue.push, MutexQueue.push, h])
      simpa [SPSCQueue.runOps, MutexQueue.runOps] using ⟨this.1, this.2⟩
    | .pop =>
      have hpop : q1.pop.1 = q2.pop.1 ∧ q1.pop.2.rest = q2.pop.2.queue_ := by
        cases hc : q2.queue_ with
        | nil => simp [SPSCQueue.pop, MutexQueue.pop, h, hc]
        | cons x xs => simp [SPSCQueue.pop, MutexQueue.pop, h, hc]
      have := ih q1.pop.2 q2.pop.2 hpop.2
      simpa [SPSCQueue.runOps, MutexQueue.runOps, hpop.1] using ⟨this.1, this.2⟩
    | .emptyQ =>
      have := ih q1 q2 h
      simpa [SPSCQueue.runOps, MutexQueue.runOps, SPSCQueue.empty,
        MutexQueue.empty, h] using ⟨this.1, this.2⟩

/-- C3: `SPSCQueue` and `MutexQueue` are observationally equivalent:
starting from freshly constructed queues, every sequence of push / pop /
empty operations yields identical observation traces (every pop returns
the same optional value, every empty query the same boolean). -/
theorem queues_observationally_equivalent (α : Type) [Inhabited α]
    (ops : List (QOp α)) :
    ((SPSCQueue.new α).runOps ops).1 = ((MutexQueue.new α).runOps ops).1 :=
  (runOps_congr ops (SPSCQueue.new α) (MutexQueue.new α) rfl).1

/-! ## Pop on an empty queue is a visible no-op (C7) -/

/-- C7: for both queue types, a `pop` on a queue whose observable state
is empty returns the explicit no-value result and leaves the entire
queue state unchanged. -/
theorem pop_on_empty_no_side_effect (α : Type)
    (qs : SPSCQueue α) (qm : MutexQueue α)
    (hs : qs.empty = true) (hm : qm.empty = true) :
    qs.pop = (none, qs) ∧ qm.pop = (none, qm) := by
  constructor
  · have : qs.rest = [] := by simpa [SPSCQueue.empty, List.isEmpty_iff] using hs
    simp [SPSCQueue.pop, this]
  · have : qm.queue_ = [] := by simpa [MutexQueue.empty, List.isEmpty_iff] using hm
    simp [MutexQueue.pop, this]

/-- Witness for C7 at the freshly constructed queues over `ℤ`. -/
theorem pop_on_empty_no_side_effect_witness :
    (SPSCQueue.new ℤ).empty = true ∧ (MutexQueue.new ℤ).empty = true ∧
      (SPSCQueue.new ℤ).pop = (none, SPSCQueue.new ℤ) ∧
      (MutexQueue.new ℤ).pop = (none, MutexQueue.new ℤ) := by
  refine ⟨rfl, rfl, ?_⟩
  have := pop_on_empty_no_side_effect ℤ (SPSCQueue.new ℤ) (MutexQueue.new ℤ) rfl rfl
  exact ⟨this.1, this.2⟩

/-! ## The producer/consumer benchmark harness (src/benchmark.cpp, C2)

`runBenchmark` starts a producer thread that pushes `num_ticks` records
and then sets the `producer_done` flag, and a consumer thread running
the poll loop of `consumerThread`.  We model an execution as an
arbitrary interleaving of atomic steps: each producer iteration pushes
one record (records are identified by their generation index
`0, …, N-1`); a separate producer step sets the done flag after the
last push; each consumer step performs the next atomic action of the
loop body, tracked by a program counter — a pop attempt (`loopTop`),
the acquire-read of the done flag after an empty pop (`checkFlag`), and
the `queue.empty()` double-check before exiting (`checkEmpty`).  The
queue is the common sequential FIFO state that both queue types realise
(theorem `queues_observationally_equivalent`). -/

/-- The consumer's program counter inside the `consumerThread` loop. -/
inductive CPC where
  | loopTop
  | checkFlag
  | checkEmpty
  | exited
deriving Repr, DecidableEq

/-- Global state of one benchmark run: the shared queue (front first),
the producer's loop index and the `producer_done` flag, and the
consumer's received-record list and program counter. -/
structure HarnessState where
  queue : List ℕ
  pushedCount : ℕ
  done : Bool
  consumed : List ℕ
  pc : CPC
deriving Repr, DecidableEq

/-- An atomic step of either thread. -/
inductive HAct where
  | prodPush
  | prodDone
  | consStep
deriving Repr, DecidableEq

/-- Initial state built by `runBenchmark`: fresh queue,
`producer_done{false}`, consumer about to enter its loop. -/
def hInit : HarnessState :=
  { queue := [], pushedCount := 0, done := false, consumed := [], pc := .loopTop }

/-- One atomic step of the harness.  A step whose thread is not at that
point of its program (producer already finished, consumer at another
label) leaves the state unchanged, so every action list denotes a valid
interleaving prefix. -/
def hStep (N : ℕ) (a : HAct) (s : HarnessState) : HarnessState :=
  match a with
  | .prodPush =>
    if s.pushedCount < N then
      { s with queue := s.queue ++ [s.pushedCount],
               pushedCount := s.pushedCount + 1 }
    else s
  | .prodDone =>
    if s.pushedCount = N then { s with done := true } else s
  | .consStep =>
    match s.pc with
    | .loopTop =>
      match s.queue with
      | x :: xs => { s with queue := xs, consumed := s.consumed ++ [x] }
      | [] => { s with pc := .checkFlag }
    | .checkFlag =>
      if s.done then { s with pc := .checkEmpty } else { s with pc := .loopTop }
    | .checkEmpty =>
      if s.queue.isEmpty then { s with pc := .exited } else { s with pc := .loopTop }
    | .exited => s

/-- Run the harness from the initial state along an interleaving. -/
def hRun (N : ℕ) (acts : List HAct) : HarnessState :=
  acts.foldl (fun s a => hStep N a s) hInit

/-- The inductive invariant of the harness: the records consumed so far
followed by those still queued are exactly the records pushed so far, in
generation order; the done flag is only set after all `N` pushes; the
consumer reaches the double-check and the exit only with the flag set,
and exits only on an empty queue. -/
def hInv (N : ℕ) (s : HarnessState) : Prop :=
  s.consumed ++ s.queue = List.range s.pushedCount ∧
  s.pushedCount ≤ N ∧
  (s.done = true → s.pushedCount = N) ∧
  (s.pc = .checkEmpty → s.done = true) ∧
  (s.pc = .exited → s.done = true ∧ s.queue = [])

lemma hInv_init (N : ℕ) : hInv N hInit := by
  simp [hInv, hInit]

lemma hInv_step (N : ℕ) (a : HAct) (s : HarnessState) (h : hInv N s) :
    hInv N (hStep N a s) := by
  obtain ⟨hfifo, hle, hdone, hce, hex⟩ := h
  match a with
  | .prodPush =>
    by_cases hlt : s.pushedCount < N
    · simp only [hStep, if_pos hlt]
      refine ⟨?_, hlt, ?_, hce, ?_⟩
      · simp [← List.append_assoc, hfifo, List.range_succ]
      · intro hd; exact absurd (hdone hd) (Nat.ne_of_lt hlt)
      · intro hpc
        obtain ⟨hd, _⟩ := hex hpc
        exact absurd (hdone hd) (Nat.ne_of_lt hlt)
    · simpa [hStep, if_neg hlt] using ⟨hfifo, hle, hdone, hce, hex⟩
  | .prodDone =>
    by_cases heq : s.pushedCount = N
    · simp only [hStep, if_pos heq]
      exact ⟨hfifo, hle, fun _ => heq, fun hpc => rfl,
        fun hpc => ⟨rfl, (hex hpc).2⟩⟩
    · simpa [hStep, if_neg heq] using ⟨hfifo, hle, hdone, hce, hex⟩
  | .consStep =>
    match hpc : s.pc with
    | .loopTop =>
      match hq : s.queue with
      | x :: xs =>
        simp only [hStep, hpc, hq]
        refine ⟨?_, hle, hdone, ?_, ?_⟩
        · show s.consumed ++ [x] ++ xs = List.range s.pushedCount
          rw [List.append_assoc]
          show s.consumed ++ (x :: xs) = _
          rw [← hq, hfifo]
        · intro hc; exact nomatch hc
        · intro hc; exact nomatch hc
      | [] =>
        simp only [hStep, hpc, hq]
        refine ⟨hq ▸ hfifo, hle, hdone, ?_, ?_⟩
        · intro hc; exact nomatch hc
        · intro hc; exact nomatch hc
    | .checkFlag =>
      by_cases hd : s.done
      · simp only [hStep, hpc, if_pos hd]
        refine ⟨hfifo, hle, hdone, fun _ => hd, ?_⟩
        intro hc; exact nomatch hc
      · simp only [hStep, hpc, if_neg hd]
        refine ⟨hfifo, hle, hdone, ?_, ?_⟩
        · intro hc; exact nomatch hc
        · intro hc; exact nomatch hc
    | .checkEmpty =>
      by_cases hq : s.queue.isEmpty
      · simp only [hStep, hpc, if_pos hq]
        refine ⟨hfifo, hle, hdone, ?_, ?_⟩
        · intro hc; exact nomatch hc
        · exact fun _ => ⟨hce hpc, by simpa [List.isEmpty_iff] using hq⟩
      · simp only [hStep, hpc, if_neg hq]
        refine ⟨hfifo, hle, hdone, ?_, ?_⟩
        · intro hc; exact nomatch hc
        · intro hc; exact nomatch hc
    | .exited =>
      simp only [hStep, hpc]
      exact ⟨hfifo, hle, hdone, hce, hex⟩

lemma hInv_run (N : ℕ) (acts : List HAct) : hInv N (hRun N acts) := by
  rw [hRun]
  induction acts using List.reverseRecOn with
  | nil => exact hInv_init N
  | append_singleton acts a ih =>
    rw [List.foldl_append, List.foldl_cons, List.foldl_nil]
    exact hInv_step N a _ ih

/-- C2: in every interleaved execution of the producer and consumer,
if the consumer has exited its loop then the done flag is set, the
queue is empty, and the consumer has retrieved exactly the `N` records
the producer pushed — each exactly once, in generation order, none lost
and none duplicated. -/
theorem consumer_exit_exactly_N_records (N : ℕ) (acts : List HAct)
    (h : (hRun N acts).pc = .exited) :
    (hRun N acts).done = true ∧ (hRun N acts).queue = [] ∧
      (hRun N acts).consumed = List.range N := by
  obtain ⟨hfifo, hle, hdone, hce, hex⟩ := hInv_run N acts
  obtain ⟨hd, hq⟩ := hex h
  refine ⟨hd, hq, ?_⟩
  have := hfifo
  rw [hq, List.append_nil, hdone hd] at this
  exact this

/-- Witness for C2: with `N = 1`, the interleaving "push, set done,
pop (getting record 0), empty pop, flag check, empty double-check"
reaches the exited state having consumed exactly `[0]`. -/
theorem consumer_exit_exactly_N_records_witness :
    (hRun 1 [.prodPush, .prodDone, .consStep, .consStep, .consStep,
      .consStep]).pc = .exited ∧
    ((hRun 1 [.prodPush, .prodDone, .consStep, .consStep, .consStep,
      .consStep]).done = true ∧
     (hRun 1 [.prodPush, .prodDone, .consStep, .consStep, .consStep,
      .consStep]).queue = [] ∧
     (hRun 1 [.prodPush, .prodDone, .consStep, .consStep, .consStep,
      .consStep]).consumed = List.range 1) :=
  ⟨by decide, consumer_exit_exactly_N_records 1
    [.prodPush, .prodDone, .consStep, .consStep, .consStep, .consStep]
    (by decide)⟩

/-! ## LatencyTracker (include/benchmark.h)

C++ `double` latencies are embedded as `ℚ`; the member vector
`latencies_micros_` as a list in insertion order.  `std::sort` is
embedded as `List.insertionSort (· ≤ ·)` (any stable comparison sort
realises `std::sort`'s postcondition of an ascending reordering);
`static_cast<size_t>` of the non-negative product `percentile * size`
is `Int.toNat ∘ Int.floor`. -/

structure LatencyTracker where
  latencies_micros_ : List ℚ
deriving Repr, DecidableEq

namespace LatencyTracker

/-- A default-constructed tracker has no samples. -/
def new : LatencyTracker := ⟨[]⟩

/-- Method `addLatency`: appends one measurement. -/
def addLatency (t : LatencyTracker) (latency_micros : ℚ) : LatencyTracker :=
  ⟨t.latencies_micros_ ++ [latency_micros]⟩

/-- Method `getPercentile`: 0 for an empty store; otherwise sorts a snapshot
copy ascending, computes `index = static_cast<size_t>(percentile *
sorted.size())`, clamps it to `size - 1` when it is out of range, and
returns `sorted[index]`. -/
def getPercentile (t : LatencyTracker) (percentile : ℚ) : ℚ :=
  if t.latencies_micros_.isEmpty then 0
  else
    let sorted := List.insertionSort (· ≤ ·) t.latencies_micros_
    let index0 := (⌊percentile * (sorted.length : ℚ)⌋).toNat
    let index := if sorted.length ≤ index0 then sorted.length - 1 else index0
    sorted.getD index 0

/-- Method `getP50`. -/
def getP50 (t : LatencyTracker) : ℚ := t.getPercentile 0.50

/-- Method `getP99`. -/
def getP99 (t : LatencyTracker) : ℚ := t.getPercentile 0.99

/-- Method `getP999`. -/
def getP999 (t : LatencyTracker) : ℚ := t.getPercentile 0.999

/-- Method `getMean`: 0 for an empty store, otherwise the accumulated sum
divided by the number of samples. -/
def getMean (t : LatencyTracker) : ℚ :=
  if t.latencies_micros_.isEmpty then 0
  else t.latencies_micros_.sum / (t.latencies_micros_.length : ℚ)

/-- Method `getMin`: 0 for an empty store, otherwise `*std::min_element`. -/
def getMin (t : LatencyTracker) : ℚ :=
  match t.latencies_micros_ with
  | [] => 0
  | x :: xs => xs.foldl min x

/-- Method `getMax`: 0 for an empty store, otherwise `*std::max_element`. -/
def getMax (t : LatencyTracker) : ℚ :=
  match t.latencies_micros_ with
  | [] => 0
  | x :: xs => xs.foldl max x

/-- Method `getCount`. -/
def getCount (t : LatencyTracker) : ℕ := t.latencies_micros_.length

/-- Method `reset`. -/
def reset (_ : LatencyTracker) : LatencyTracker := ⟨[]⟩

end LatencyTracker

/-- The percentile selection exactly as the spec words it: "selects the
index `floor(p * size)` clamped to `size - 1`" of the ascending sort,
"or zero for an empty set". -/
def specPercentile (samples : List ℚ) (p : ℚ) : ℚ :=
  if samples = [] then 0
  else
    (List.insertionSort (· ≤ ·) samples).getD
      (min (⌊p * (samples.length : ℚ)⌋).toNat (samples.length - 1)) 0

/-- The tracker of the spec's concrete percentile scenario, fed the
samples 1, …, 10 in order. -/
def tenSampleTracker : LatencyTracker :=
  ((((((((((LatencyTracker.new.addLatency 1).addLatency 2).addLatency
    3).addLatency 4).addLatency 5).addLatency 6).addLatency 7).addLatency
    8).addLatency 9).addLatency 10)

lemma clamp_eq_min (i n : ℕ) (hn : 1 ≤ n) :
    (if n ≤ i then n - 1 else i) = min i (n - 1) := by
  split <;> omega

lemma tenSampleTracker_samples :
    tenSampleTracker = ⟨[1, 2, 3, 4, 5, 6, 7, 8, 9, 10]⟩ := by
  decide

lemma tenSample_getPercentile_half : tenSampleTracker.getPercentile 0.5 = 6 := by
  rw [tenSampleTracker_samples]
  simp only [LatencyTracker.getPercentile]
  norm_num
  decide

lemma tenSample_getPercentile_p99 : tenSampleTracker.getPercentile 0.99 = 10 := by
  rw [tenSampleTracker_samples]
  simp only [LatencyTracker.getPercentile]
  norm_num
  decide

/-- C4: `getPercentile` computes exactly the spec's selection — zero on
an empty sample set, else the ascending sort's entry at index
`floor(p * size)` clamped to `size - 1`; on samples `[1, …, 10]` the
0.5-percentile is 6 and the 0.99-percentile is 10. -/
theorem getPercentile_matches_spec (t : LatencyTracker) (p : ℚ)
    (h0 : 0 ≤ p) (h1 : p ≤ 1) :
    t.getPercentile p = specPercentile t.latencies_micros_ p ∧
    tenSampleTracker.getPercentile 0.5 = 6 ∧
    tenSampleTracker.getPercentile 0.99 = 10 := by
  refine ⟨?_, tenSample_getPercentile_half, tenSample_getPercentile_p99⟩
  by_cases h : t.latencies_micros_ = []
  · simp [LatencyTracker.getPercentile, specPercentile, h]
  · have hne : t.latencies_micros_.isEmpty = false := by
      simpa [List.isEmpty_iff] using h
    have hn : 1 ≤ t.latencies_micros_.length :=
      List.length_pos.mpr h
    simp only [LatencyTracker.getPercentile, specPercentile, hne, h,
      Bool.false_eq_true, if_false, List.length_insertionSort]
    rw [clamp_eq_min _ _ hn]

/-- Witness for C4 at the ten-sample tracker and `p = 1/2`. -/
theorem getPercentile_matches_spec_witness :
    (0 ≤ (1/2 : ℚ)) ∧ ((1/2 : ℚ) ≤ 1) ∧
      (tenSampleTracker.getPercentile (1/2) =
        specPercentile tenSampleTracker.latencies_micros_ (1/2) ∧
       tenSampleTracker.getPercentile 0.5 = 6 ∧
       tenSampleTracker.getPercentile 0.99 = 10) :=
  ⟨by norm_num, by norm_num,
    getPercentile_matches_spec tenSampleTracker (1/2) (by norm_num) (by norm_num)⟩

lemma getPercentile_index_lt (n i0 : ℕ) (hn : 0 < n) :
    (if n ≤ i0 then n - 1 else i0) < n := by
  split <;> omega

/-- C5: for a fixed sample set, `getPercentile` is monotone in the
requested percentile over `[0, 1]`. -/
theorem getPercentile_mono (t : LatencyTracker) (p1 p2 : ℚ)
    (h0 : 0 ≤ p1) (h12 : p1 ≤ p2) (h1 : p2 ≤ 1) :
    t.getPercentile p1 ≤ t.getPercentile p2 := by
  by_cases h : t.latencies_micros_ = []
  · simp [LatencyTracker.getPercentile, h]
  · have hne : t.latencies_micros_.isEmpty = false := by
      simpa [List.isEmpty_iff] using h
    have hn : 0 < (List.insertionSort (· ≤ ·) t.latencies_micros_).length := by
      rw [List.length_insertionSort]
      exact List.length_pos.mpr h
    simp only [LatencyTracker.getPercentile, hne, Bool.false_eq_true, if_false]
    set s := List.insertionSort (· ≤ ·) t.latencies_micros_ with hs
    have hsort : s.Sorted (· ≤ ·) := List.sorted_insertionSort _ _
    have hmul : p1 * (s.length : ℚ) ≤ p2 * (s.length : ℚ) :=
      mul_le_mul_of_nonneg_right h12 (by positivity)
    have hfl : (⌊p1 * (s.length : ℚ)⌋).toNat ≤ (⌊p2 * (s.length : ℚ)⌋).toNat :=
      Int.toNat_le_toNat (Int.floor_le_floor hmul)
    set a1 := (⌊p1 * (s.length : ℚ)⌋).toNat
    set a2 := (⌊p2 * (s.length : ℚ)⌋).toNat
    have hi1 : (if s.length ≤ a1 then s.length - 1 else a1) < s.length :=
      getPercentile_index_lt s.length a1 hn
    have hi2 : (if s.length ≤ a2 then s.length - 1 else a2) < s.length :=
      getPercentile_index_lt s.length a2 hn
    have hle : (if s.length ≤ a1 then s.length - 1 else a1) ≤
        (if s.length ≤ a2 then s.length - 1 else a2) := by
      split_ifs <;> omega
    rw [List.getD_eq_get s 0 hi1, List.getD_eq_get s 0 hi2]
    exact hsort.rel_get_of_le (Fin.mk_le_mk.mpr hle)

/-- Witness for C5 on the ten-sample tracker at `p1 = 1/2 ≤ p2 = 99/100`. -/
theorem getPercentile_mono_witness :
    (0 ≤ (1/2 : ℚ)) ∧ ((1/2 : ℚ) ≤ 99/100) ∧ ((99/100 : ℚ) ≤ 1) ∧
      tenSampleTracker.getPercentile (1/2) ≤
        tenSampleTracker.getPercentile (99/100) :=
  ⟨by norm_num, by norm_num, by norm_num,
    getPercentile_mono tenSampleTracker (1/2) (99/100)
      (by norm_num) (by norm_num) (by norm_num)⟩

lemma foldl_min_spec (xs : List ℚ) (x : ℚ) :
    xs.foldl min x ∈ x :: xs ∧ ∀ y ∈ x :: xs, xs.foldl min x ≤ y := by
  induction xs generalizing x with
  | nil => simp
  | cons y ys ih =>
    obtain ⟨ihm, ihle⟩ := ih (min x y)
    rw [List.foldl_cons]
    constructor
    · rcases List.mem_cons.mp ihm with hm | hm
      · rcases min_cases x y with ⟨he, _⟩ | ⟨he, _⟩ <;> rw [hm, he] <;> simp
      · exact List.mem_cons_of_mem _ (List.mem_cons_of_mem _ hm)
    · intro z hz
      simp only [List.mem_cons] at hz
      rcases hz with rfl | rfl | hz
      · exact le_trans (ihle _ (List.mem_cons_self _ _)) (min_le_left _ _)
      · exact le_trans (ihle _ (List.mem_cons_self _ _)) (min_le_right _ _)
      · exact ihle _ (List.mem_cons_of_mem _ hz)

lemma foldl_max_spec (xs : List ℚ) (x : ℚ) :
    xs.foldl max x ∈ x :: xs ∧ ∀ y ∈ x :: xs, y ≤ xs.foldl max x := by
  induction xs generalizing x with
  | nil => simp
  | cons y ys ih =>
    obtain ⟨ihm, ihle⟩ := ih (max x y)
    rw [List.foldl_cons]
    constructor
    · rcases List.mem_cons.mp ihm with hm | hm
      · rcases max_cases x y with ⟨he, _⟩ | ⟨he, _⟩ <;> rw [hm, he] <;> simp
      · exact List.mem_cons_of_mem _ (List.mem_cons_of_mem _ hm)
    · intro z hz
      simp only [List.mem_cons] at hz
      rcases hz with rfl | rfl | hz
      · exact le_trans (le_max_left _ _) (ihle _ (List.mem_cons_self _ _))
      · exact le_trans (le_max_right _ _) (ihle _ (List.mem_cons_self _ _))
      · exact ihle _ (List.mem_cons_of_mem _ hz)

lemma getMin_spec (t : LatencyTracker) (h : t.latencies_micros_ ≠ []) :
    t.getMin ∈ t.latencies_micros_ ∧
      ∀ y ∈ t.latencies_micros_, t.getMin ≤ y := by
  match hl : t.latencies_micros_ with
  | [] => exact absurd hl h
  | x :: xs =>
    have := foldl_min_spec xs x
    simpa [LatencyTracker.getMin, hl] using this

lemma getMax_spec (t : LatencyTracker) (h : t.latencies_micros_ ≠ []) :
    t.getMax ∈ t.latencies_micros_ ∧
      ∀ y ∈ t.latencies_micros_, y ≤ t.getMax := by
  match hl : t.latencies_micros_ with
  | [] => exact absurd hl h
  | x :: xs =>
    have := foldl_max_spec xs x
    simpa [LatencyTracker.getMax, hl] using this

lemma sorted_get_le_of_mem {s : List ℚ} (hsort : s.Sorted (· ≤ ·))
    (hn : 0 < s.length) {y : ℚ} (hy : y ∈ s) :
    s.get ⟨0, hn⟩ ≤ y ∧ y ≤ s.get ⟨s.length - 1, by omega⟩ := by
  obtain ⟨i, rfl⟩ := List.mem_iff_get.mp hy
  constructor
  · exact hsort.rel_get_of_le (Fin.mk_le_mk.mpr (Nat.zero_le _))
  · exact hsort.rel_get_of_le (Fin.mk_le_mk.mpr (by omega))

/-- C6: on a non-empty sample set `getPercentile 0` is the minimum
sample and `getPercentile p` for `p ≥ 1` is the maximum sample; on a
tracker with no samples, `getPercentile`, `getMean`, `getMin` and
`getMax` all return 0. -/
theorem getPercentile_boundary (t te : LatencyTracker) (p q : ℚ)
    (hne : t.latencies_micros_ ≠ []) (hp : 1 ≤ p)
    (hte : te.latencies_micros_ = []) :
    t.getPercentile 0 = t.getMin ∧ t.getPercentile p = t.getMax ∧
    te.getPercentile q = 0 ∧ te.getMean = 0 ∧
    te.getMin = 0 ∧ te.getMax = 0 := by
  have hbe : t.latencies_micros_.isEmpty = false := by
    simpa [List.isEmpty_iff] using hne
  have hn : 0 < (List.insertionSort (· ≤ ·) t.latencies_micros_).length := by
    rw [List.length_insertionSort]
    exact List.length_pos.mpr hne
  set s := List.insertionSort (· ≤ ·) t.latencies_micros_ with hs
  have hsort : s.Sorted (· ≤ ·) := List.sorted_insertionSort _ _
  have hperm : ∀ y : ℚ, y ∈ s ↔ y ∈ t.latencies_micros_ :=
    fun y => (List.perm_insertionSort (· ≤ ·) t.latencies_micros_).mem_iff
  refine ⟨?_, ?_, ?_, ?_, ?_, ?_⟩
  · -- percentile 0 = min
    have hidx : (⌊(0 : ℚ) * (s.length : ℚ)⌋).toNat = 0 := by norm_num
    simp only [LatencyTracker.getPercentile, hbe, Bool.false_eq_true, if_false,
      ← hs, hidx]
    rw [if_neg (by omega), List.getD_eq_get s 0 hn]
    obtain ⟨hmem, hmin⟩ := getMin_spec t hne
    refine le_antisymm ?_ ?_
    · obtain ⟨i, hi⟩ := List.mem_iff_get.mp ((hperm _).mpr hmem)
      calc s.get ⟨0, hn⟩ ≤ s.get i :=
              hsort.rel_get_of_le (Fin.mk_le_mk.mpr (Nat.zero_le _))
        _ = t.getMin := hi
    · exact hmin _ ((hperm _).mp (List.get_mem s 0 hn))
  · -- percentile at or above 1 = max
    have hge : (s.length : ℤ) ≤ ⌊p * (s.length : ℚ)⌋ := by
      rw [Int.le_floor]
      push_cast
      exact le_mul_of_one_le_left (by positivity) hp
    have hidx : s.length ≤ (⌊p * (s.length : ℚ)⌋).toNat := by
      omega
    simp only [LatencyTracker.getPercentile, hbe, Bool.false_eq_true, if_false,
      ← hs]
    rw [if_pos hidx, List.getD_eq_get s 0 (by omega)]
    obtain ⟨hmem, hmax⟩ := getMax_spec t hne
    refine le_antisymm ?_ ?_
    · exact hmax _ ((hperm _).mp (List.get_mem s (s.length - 1) (by omega)))
    · obtain ⟨i, hi⟩ := List.mem_iff_get.mp ((hperm _).mpr hmem)
      calc t.getMax = s.get i := hi.symm
        _ ≤ s.get ⟨s.length - 1, by omega⟩ :=
              hsort.rel_get_of_le (Fin.mk_le_mk.mpr (by omega))
  · simp [LatencyTracker.getPercentile, hte]
  · simp [LatencyTracker.getMean, hte]
  · simp [LatencyTracker.getMin, hte]
  · simp [LatencyTracker.getMax, hte]

/-- Witness for C6 at the ten-sample tracker, `p = 3/2`, and the fresh
tracker with `q = 1/4`. -/
theorem getPercentile_boundary_witness :
    tenSampleTracker.latencies_micros_ ≠ [] ∧ (1 ≤ (3/2 : ℚ)) ∧
      LatencyTracker.new.latencies_micros_ = [] ∧
      (tenSampleTracker.getPercentile 0 = tenSampleTracker.getMin ∧
       tenSampleTracker.getPercentile (3/2) = tenSampleTracker.getMax ∧
       LatencyTracker.new.getPercentile (1/4) = 0 ∧
       LatencyTracker.new.getMean = 0 ∧
       LatencyTracker.new.getMin = 0 ∧ LatencyTracker.new.getMax = 0) :=
  ⟨by decide, by norm_num, rfl,
    getPercentile_boundary tenSampleTracker LatencyTracker.new (3/2) (1/4)
      (by decide) (by norm_num) rfl⟩

/-! ## Read queries leave the sample store unchanged (C10)

Each `const` query of `LatencyTracker` is embedded as a call returning
the queried value together with the receiver state at the moment the
call returns.  In `getPercentile`'s body the only container that is
written is the local snapshot `std::vector<double> sorted =
latencies_micros_` (which `std::sort` mutates); the member vector is
only ever read, so the receiver passes through unchanged. -/

/-- Method `getPercentile` as a call: the returned value paired with the
receiver after the call.  The sort target is the local `sorted`. -/
def LatencyTracker.getPercentileCall (t : LatencyTracker) (percentile : ℚ) :
    ℚ × LatencyTracker :=
  if t.latencies_micros_.isEmpty then (0, t)
  else
    let sorted := List.insertionSort (· ≤ ·) t.latencies_micros_
    let index0 := (⌊percentile * (sorted.length : ℚ)⌋).toNat
    let index := if sorted.length ≤ index0 then sorted.length - 1 else index0
    (sorted.getD index 0, t)

/-- Method `getMean` as a call. -/
def LatencyTracker.getMeanCall (t : LatencyTracker) : ℚ × LatencyTracker :=
  (t.getMean, t)

/-- Method `getMin` as a call. -/
def LatencyTracker.getMinCall (t : LatencyTracker) : ℚ × LatencyTracker :=
  (t.getMin, t)

/-- Method `getMax` as a call. -/
def LatencyTracker.getMaxCall (t : LatencyTracker) : ℚ × LatencyTracker :=
  (t.getMax, t)

/-- Method `getCount` as a call. -/
def LatencyTracker.getCountCall (t : LatencyTracker) : ℕ × LatencyTracker :=
  (t.getCount, t)

/-- C10: every read query (`getPercentile`, `getMean`, `getMin`,
`getMax`, `getCount`) leaves the recorded sample sequence exactly as it
was, and the value `getPercentile` returns is computed from the sorted
snapshot alone — it agrees with the pure `getPercentile` function of the
receiver's (unchanged) samples. -/
theorem read_queries_preserve_samples (t : LatencyTracker) (p : ℚ) :
    (t.getPercentileCall p).2.latencies_micros_ = t.latencies_micros_ ∧
    t.getMeanCall.2.latencies_micros_ = t.latencies_micros_ ∧
    t.getMinCall.2.latencies_micros_ = t.latencies_micros_ ∧
    t.getMaxCall.2.latencies_micros_ = t.latencies_micros_ ∧
    t.getCountCall.2.latencies_micros_ = t.latencies_micros_ ∧
    (t.getPercentileCall p).1 = t.getPercentile p := by
  refine ⟨?_, rfl, rfl, rfl, rfl, ?_⟩ <;>
    by_cases h : t.latencies_micros_.isEmpty <;>
      simp [LatencyTracker.getPercentileCall, LatencyTracker.getPercentile, h]

/-! ## ThroughputMeter (include/benchmark.h, C8)

`std::chrono::steady_clock::time_point`s are embedded as rational
instants; a default-constructed time point is the clock's epoch, i.e.
instant 0.  `now` — the clock reading at the moment of the call — is an
explicit argument of the operations that consult the clock. -/

structure ThroughputMeter where
  item_count_ : ℕ
  start_time_ : ℚ
  end_time_ : ℚ
  running_ : Bool
deriving Repr, DecidableEq

namespace ThroughputMeter

/-- Constructor: `item_count_(0), running_(false)`; the two time points
are default-constructed (epoch). -/
def new : ThroughputMeter :=
  { item_count_ := 0, start_time_ := 0, end_time_ := 0, running_ := false }

/-- Method `start`: records the current time, resets the counter, sets running. -/
def start (m : ThroughputMeter) (now : ℚ) : ThroughputMeter :=
  { m with start_time_ := now, item_count_ := 0, running_ := true }

/-- Method `stop`: records the end time and clears running. -/
def stop (m : ThroughputMeter) (now : ℚ) : ThroughputMeter :=
  { m with end_time_ := now, running_ := false }

/-- Method `addItem`. -/
def addItem (m : ThroughputMeter) : ThroughputMeter :=
  { m with item_count_ := m.item_count_ + 1 }

/-- Method `addItems`. -/
def addItems (m : ThroughputMeter) (count : ℕ) : ThroughputMeter :=
  { m with item_count_ := m.item_count_ + count }

/-- Method `getThroughput`: zero when no items were counted; otherwise divides
the count by the elapsed seconds ("now minus start" while running, else
"stop minus start"), returning zero instead of dividing when the
elapsed time is zero. -/
def getThroughput (m : ThroughputMeter) (now : ℚ) : ℚ :=
  if m.item_count_ = 0 then 0
  else
    let seconds :=
      if m.running_ then now - m.start_time_ else m.end_time_ - m.start_time_
    if seconds = 0 then 0 else (m.item_count_ : ℚ) / seconds

/-- Method `getElapsedSeconds`. -/
def getElapsedSeconds (m : ThroughputMeter) (now : ℚ) : ℚ :=
  if m.running_ then now - m.start_time_ else m.end_time_ - m.start_time_

end ThroughputMeter

/-- A call against the meter's interface, tagged with the clock reading
where the source consults the clock. -/
inductive MOp where
  | start (now : ℚ)
  | stop (now : ℚ)
  | addItem
  | addItems (count : ℕ)
deriving Repr, DecidableEq

/-- Whether an operation touches the meter's time points. -/
def MOp.isTimingOp : MOp → Bool
  | .start _ => true
  | .stop _ => true
  | _ => false

/-- Apply one interface call to a meter. -/
def applyMOp (m : ThroughputMeter) (op : MOp) : ThroughputMeter :=
  match op with
  | .start now => m.start now
  | .stop now => m.stop now
  | .addItem => m.addItem
  | .addItems n => m.addItems n

/-- Apply a sequence of interface calls to a meter. -/
def applyMOps (m : ThroughputMeter) (ops : List MOp) : ThroughputMeter :=
  ops.foldl applyMOp m

lemma applyMOps_no_timing (ops : List MOp) (m : ThroughputMeter)
    (h : ops.all (fun op => ! op.isTimingOp) = true) :
    (applyMOps m ops).start_time_ = m.start_time_ ∧
    (applyMOps m ops).end_time_ = m.end_time_ ∧
    (applyMOps m ops).running_ = m.running_ := by
  induction ops generalizing m with
  | nil => exact ⟨rfl, rfl, rfl⟩
  | cons op ops ih =>
    rw [List.all_cons, Bool.and_eq_true] at h
    have hstep : (applyMOp m op).start_time_ = m.start_time_ ∧
        (applyMOp m op).end_time_ = m.end_time_ ∧
        (applyMOp m op).running_ = m.running_ := by
      match op with
      | .start now => simp [MOp.isTimingOp] at h
      | .stop now => simp [MOp.isTimingOp] at h
      | .addItem => exact ⟨rfl, rfl, rfl⟩
      | .addItems n => exact ⟨rfl, rfl, rfl⟩
    have := ih (applyMOp m op) h.2
    rw [applyMOps, List.foldl_cons] at *
    exact ⟨this.1.trans hstep.1, this.2.1.trans hstep.2.1,
      this.2.2.trans hstep.2.2⟩

/-- C8: `getThroughput` returns 0 whenever the item count is 0
(regardless of the elapsed time) and whenever the elapsed time is 0, so
the division is never performed with a zero divisor; and a meter on
which `start` was never invoked — a fresh meter subjected to any
sequence of counting operations — has zero elapsed time and reports
zero throughput at every clock reading. -/
theorem getThroughput_zero_guard (m : ThroughputMeter) (now now2 : ℚ)
    (ops : List MOp)
    (hz : m.item_count_ = 0 ∨
      (if m.running_ then now - m.start_time_ else m.end_time_ - m.start_time_) = 0)
    (hops : ops.all (fun op => ! op.isTimingOp) = true) :
    m.getThroughput now = 0 ∧
    (applyMOps ThroughputMeter.new ops).getElapsedSeconds now2 = 0 ∧
    (applyMOps ThroughputMeter.new ops).getThroughput now2 = 0 := by
  obtain ⟨hst, hen, hru⟩ := applyMOps_no_timing ops ThroughputMeter.new hops
  have hfields : (applyMOps ThroughputMeter.new ops).start_time_ = 0 ∧
      (applyMOps ThroughputMeter.new ops).end_time_ = 0 ∧
      (applyMOps ThroughputMeter.new ops).running_ = false :=
    ⟨hst, hen, hru⟩
  refine ⟨?_, ?_, ?_⟩
  · rcases hz with hz | hz
    · simp [ThroughputMeter.getThroughput, hz]
    · by_cases hc : m.item_count_ = 0
      · simp [ThroughputMeter.getThroughput, hc]
      · simp [ThroughputMeter.getThroughput, hc, hz]
  · simp [ThroughputMeter.getElapsedSeconds, hfields.1, hfields.2.1,
      hfields.2.2]
  · by_cases hc : (applyMOps ThroughputMeter.new ops).item_count_ = 0
    · simp [ThroughputMeter.getThroughput, hc]
    · simp [ThroughputMeter.getThroughput, hc, hfields.1, hfields.2.1,
        hfields.2.2]

/-- Witness for C8: a stopped meter that counted 3 items over zero
elapsed time, and a fresh meter that counted items without `start`. -/
theorem getThroughput_zero_guard_witness :
    ((⟨3, 5, 5, false⟩ : ThroughputMeter).item_count_ = 0 ∨
      (if (⟨3, 5, 5, false⟩ : ThroughputMeter).running_
       then 9 - (⟨3, 5, 5, false⟩ : ThroughputMeter).start_time_
       else (⟨3, 5, 5, false⟩ : ThroughputMeter).end_time_ -
         (⟨3, 5, 5, false⟩ : ThroughputMeter).start_time_) = 0) ∧
    ([MOp.addItem, MOp.addItems 2].all (fun op => ! op.isTimingOp) = true) ∧
    ((⟨3, 5, 5, false⟩ : ThroughputMeter).getThroughput 9 = 0 ∧
     (applyMOps ThroughputMeter.new [MOp.addItem, MOp.addItems 2]).getElapsedSeconds 7 = 0 ∧
     (applyMOps ThroughputMeter.new [MOp.addItem, MOp.addItems 2]).getThroughput 7 = 0) :=
  ⟨Or.inr (by norm_num), by decide,
    getThroughput_zero_guard ⟨3, 5, 5, false⟩ 9 7
      [MOp.addItem, MOp.addItems 2] (Or.inr (by norm_num)) (by decide)⟩

/-! ## BenchmarkResults and CSV export (include/benchmark.h, C9)

`exportToCSV` opens the target file and, when the open fails
(`!file.is_open()`), returns at once; otherwise it writes the fixed
header line followed by one comma-separated row per result.  The
filesystem is embedded by the boolean `canOpen` (whether the target can
be opened) and the written file content; the C++ function's return type
is `void`, so the value returned to the caller is `Unit`, and the
`results` vector is taken by const reference, so the caller's results
after the call are part of the model's output. -/

structure BenchmarkResults where
  name : String
  ticks_processed : ℕ
  throughput_tps : ℚ
  latency_mean : ℚ
  latency_p50 : ℚ
  latency_p99 : ℚ
  latency_p999 : ℚ
  latency_min : ℚ
  latency_max : ℚ
  elapsed_seconds : ℚ
deriving Repr, DecidableEq

/-- The fixed CSV header line. -/
def csvHeader : String :=
  "Name,Ticks,Throughput_TPS,Latency_Mean,Latency_P50,Latency_P99,Latency_P999,Latency_Min,Latency_Max,Elapsed_Sec"

/-- One CSV data row for a result record. -/
def csvLine (r : BenchmarkResults) : String :=
  r.name ++ "," ++ toString r.ticks_processed ++ "," ++
    toString r.throughput_tps ++ "," ++ toString r.latency_mean ++ "," ++
    toString r.latency_p50 ++ "," ++ toString r.latency_p99 ++ "," ++
    toString r.latency_p999 ++ "," ++ toString r.latency_min ++ "," ++
    toString r.latency_max ++ "," ++ toString r.elapsed_seconds

/-- Method `BenchmarkResults::exportToCSV`: the triple of (value returned to
the caller, file content written — `none` when nothing was written, the
caller's `results` vector after the call). -/
def exportToCSV (results : List BenchmarkResults) (canOpen : Bool) :
    Unit × Option (List String) × List BenchmarkResults :=
  if !canOpen then ((), none, results)
  else ((), some (csvHeader :: results.map csvLine), results)

/-- A concrete result record for the C9 counterexample. -/
def sampleResult : BenchmarkResults :=
  { name := "Lock-Free SPSC (10000)", ticks_processed := 10000,
    throughput_tps := 2000000, latency_mean := 3, latency_p50 := 2,
    latency_p99 := 9, latency_p999 := 15, latency_min := 1,
    latency_max := 20, elapsed_seconds := 1/200 }

/-- C9 counterexample: `exportToCSV` does not report the open failure
to the caller.  The C++ function returns `void` and its failure path is
a bare `return;`, so at the concrete input `[sampleResult]` the value
the caller receives when the file cannot be opened is identical to the
value received on success — the caller cannot observe the failure (and
`runComprehensiveBenchmarks` indeed prints its success message
unconditionally afterwards). -/
theorem exportToCSV_failure_not_reported :
    (exportToCSV [sampleResult] false).1 = (exportToCSV [sampleResult] true).1 ∧
    (exportToCSV [sampleResult] false).1 = () := by
  constructor <;> rfl

/-- C9 amended: when the target file cannot be opened, `exportToCSV`
returns at once without writing anything; the failure is non-fatal but
silent — the caller receives the same `void` result as on success — and
the in-memory benchmark results passed to it remain valid and
unchanged. -/
theorem exportToCSV_failure_nonfatal_results_unchanged
    (results : List BenchmarkResults) :
    (exportToCSV results false).2.1 = none ∧
    (exportToCSV results false).1 = (exportToCSV results true).1 ∧
    (exportToCSV results false).2.2 = results ∧
    (exportToCSV results true).2.2 = results := by
  refine ⟨rfl, rfl, rfl, rfl⟩

end MDFH
